import Mathlib

/-!
Verification development for the `epub-extractor` repository
(`epub_extractor/epub_extractor.py`), as a shallow embedding in Lean.

Each Python function relevant to the verified properties is translated
into an executable Lean definition; filesystem access and XML parsing
are modelled explicitly (paths/contents as strings, the filesystem as a
finite map).
-/

namespace Epub

/-! ## TOC data model and cleaning
(`TocNcx.cleaned_toc_ncx_data`, `NavigationXml.cleaned_navigation_xml_data`) -/

/-- A raw TOC entry as produced by `TocNcx.toc_ncx_data` and
`NavigationXml.navigation_xml_data`: an ordered dict with keys
`page_xml`, `start_page` and `section_title`. -/
structure TocEntry where
  page_xml : String
  start_page : Int
  section_title : String
deriving DecidableEq

/-- A cleaned TOC entry: the same dict after `end_page` has been assigned
by the cleaning loop. -/
structure TocRange where
  page_xml : String
  start_page : Int
  end_page : Int
  section_title : String
deriving DecidableEq

/-- `sorted(data, key=lambda x: x['start_page'])`: Python's `sorted` is a
stable ascending sort by the key, modelled by the stable
`List.insertionSort` on the key order. -/
def sortByStart (l : List TocEntry) : List TocEntry :=
  l.insertionSort (fun a b => a.start_page ≤ b.start_page)

/-- `if navs: navs[-1]['end_page'] = v` — assign the last accumulated
entry's `end_page`; no-op on the empty list. -/
def setLastEnd : List TocRange → Int → List TocRange
  | [], _ => []
  | [x], v => [{ x with end_page := v }]
  | x :: y :: t, v => x :: setLastEnd (y :: t) v

/-- One iteration of the loop body of `cleaned_toc_ncx_data` /
`cleaned_navigation_xml_data`; the state is the `attended` set (kept as a
list) and the `navs` accumulator.  A freshly appended entry's `end_page`
is a placeholder `0` (in Python the dict key is simply absent until
assigned; it is always assigned before the function returns). -/
def cleanStep (acc : List Int × List TocRange) (o : TocEntry) :
    List Int × List TocRange :=
  if o.start_page ∈ acc.1 then acc
  else (o.start_page :: acc.1,
    setLastEnd acc.2 (o.start_page - 1) ++
      [⟨o.page_xml, o.start_page, 0, o.section_title⟩])

/-- `TocNcx.cleaned_toc_ncx_data` / `NavigationXml.cleaned_navigation_xml_data`
(the two method bodies are textually identical): iterate the sorted raw
entries, skip already attended start pages, on each append set the previous
entry's `end_page` to `start_page - 1`, and finally set the last entry's
`end_page` to the book's `last_page_number`. -/
def cleanedTocData (data : List TocEntry) (last_page_number : Int) :
    List TocRange :=
  setLastEnd ((sortByStart data).foldl cleanStep ([], [])).2 last_page_number

/-- The spec's "deduplicate by start page keeping only the first entry per
page", with an explicit list of already seen start pages. -/
def dedupByStart (attended : List Int) : List TocEntry → List TocEntry
  | [] => []
  | o :: rest =>
    if o.start_page ∈ attended then dedupByStart attended rest
    else o :: dedupByStart (o.start_page :: attended) rest

/-- The spec's end-page assignment: each retained entry's `end_page` is the
next retained entry's `start_page - 1`; the last retained entry's
`end_page` is the total page count. -/
def assignEndPages (total : Int) : List TocEntry → List TocRange
  | [] => []
  | [o] => [⟨o.page_xml, o.start_page, total, o.section_title⟩]
  | o :: o2 :: rest =>
    ⟨o.page_xml, o.start_page, o2.start_page - 1, o.section_title⟩ ::
      assignEndPages total (o2 :: rest)

/-- The cleaning algorithm exactly as the spec words it: sort ascending by
resolved start page (stably), deduplicate keeping the first entry per
distinct start page, then assign end pages. -/
def cleanedTocSpec (data : List TocEntry) (total : Int) : List TocRange :=
  assignEndPages total (dedupByStart [] (sortByStart data))

/-- Effect of the tail of the loop on an arbitrary intermediate state. -/
def attachRanges (navs : List TocRange) (ds : List TocEntry) (total : Int) :
    List TocRange :=
  match ds with
  | [] => setLastEnd navs total
  | o :: _ => setLastEnd navs (o.start_page - 1) ++ assignEndPages total ds

theorem setLastEnd_append : ∀ (a : List TocRange) {b : List TocRange}
    (v : Int), b ≠ [] → setLastEnd (a ++ b) v = a ++ setLastEnd b v
  | [], _, _, _ => rfl
  | x :: a, b, v, hb => by
    have h := setLastEnd_append a v hb
    cases ha : a ++ b with
    | nil => exact absurd (List.append_eq_nil.mp ha).2 hb
    | cons y t =>
      rw [List.cons_append, ha, setLastEnd, ← ha, h, List.cons_append]

theorem foldl_cleanStep (l : List TocEntry) :
    ∀ (attended : List Int) (navs : List TocRange) (total : Int),
    setLastEnd (l.foldl cleanStep (attended, navs)).2 total =
      attachRanges navs (dedupByStart attended l) total := by
  induction l with
  | nil => intro attended navs total; rfl
  | cons o l ih =>
    intro attended navs total
    by_cases h : o.start_page ∈ attended
    · simp only [List.foldl_cons, cleanStep, if_pos h, dedupByStart, ih]
    · simp only [List.foldl_cons, cleanStep, if_neg h, dedupByStart]
      rw [ih]
      cases hd : dedupByStart (o.start_page :: attended) l with
      | nil =>
        show setLastEnd (setLastEnd navs (o.start_page - 1) ++ [_]) total = _
        rw [setLastEnd_append _ _ (by simp)]
        simp [attachRanges, assignEndPages, setLastEnd]
      | cons o2 ds =>
        show setLastEnd (setLastEnd navs (o.start_page - 1) ++ [_])
            (o2.start_page - 1) ++ assignEndPages total (o2 :: ds) = _
        rw [setLastEnd_append _ _ (by simp)]
        simp [attachRanges, assignEndPages, setLastEnd, List.append_assoc]

/-- The implementation's cleaning loop coincides with the spec pipeline. -/
theorem cleanedTocData_eq_spec (data : List TocEntry) (total : Int) :
    cleanedTocData data total = cleanedTocSpec data total := by
  unfold cleanedTocData cleanedTocSpec
  rw [foldl_cleanStep]
  cases dedupByStart [] (sortByStart data) <;>
    simp [attachRanges, setLastEnd, assignEndPages]

instance : IsTotal TocEntry (fun a b => a.start_page ≤ b.start_page) :=
  ⟨fun a b => Int.le_total a.start_page b.start_page⟩

instance : IsTrans TocEntry (fun a b => a.start_page ≤ b.start_page) :=
  ⟨fun _ _ _ h h' => Int.le_trans h h'⟩

theorem dedupByStart_subset : ∀ (attended : List Int) (l : List TocEntry),
    ∀ x ∈ dedupByStart attended l, x ∈ l := by
  intro attended l
  induction l generalizing attended with
  | nil => simp [dedupByStart]
  | cons o l ih =>
    intro x hx
    rw [dedupByStart] at hx
    by_cases h : o.start_page ∈ attended
    · rw [if_pos h] at hx
      exact List.mem_cons_of_mem o (ih attended x hx)
    · rw [if_neg h] at hx
      rcases List.mem_cons.mp hx with he | hm
      · exact he ▸ List.mem_cons_self o l
      · exact List.mem_cons_of_mem o (ih _ x hm)

theorem dedupByStart_not_attended :
    ∀ (attended : List Int) (l : List TocEntry),
    ∀ x ∈ dedupByStart attended l, x.start_page ∉ attended := by
  intro attended l
  induction l generalizing attended with
  | nil => simp [dedupByStart]
  | cons o l ih =>
    intro x hx
    rw [dedupByStart] at hx
    by_cases h : o.start_page ∈ attended
    · rw [if_pos h] at hx
      exact ih attended x hx
    · rw [if_neg h] at hx
      rcases List.mem_cons.mp hx with he | hm
      · exact he ▸ h
      · intro hmem
        exact ih (o.start_page :: attended) x hm (List.mem_cons_of_mem _ hmem)

theorem dedupByStart_pairwise (l : List TocEntry)
    (h : l.Pairwise (fun a b => a.start_page ≤ b.start_page)) :
    ∀ attended : List Int, (dedupByStart attended l).Pairwise
      (fun a b => a.start_page < b.start_page) := by
  induction l with
  | nil => intro attended; simp [dedupByStart]
  | cons o l ih =>
    intro attended
    rw [List.pairwise_cons] at h
    rw [dedupByStart]
    by_cases hmem : o.start_page ∈ attended
    · rw [if_pos hmem]; exact ih h.2 attended
    · rw [if_neg hmem]
      refine List.pairwise_cons.mpr ⟨fun x hx => ?_, ih h.2 _⟩
      have hle := h.1 x (dedupByStart_subset _ _ x hx)
      have hne := dedupByStart_not_attended _ _ x hx
      have : x.start_page ≠ o.start_page := by
        intro he
        exact hne (he ▸ List.mem_cons_self _ _)
      omega

theorem dedupByStart_eq_self : ∀ (l : List TocEntry) (attended : List Int),
    l.Pairwise (fun a b => a.start_page < b.start_page) →
    (∀ x ∈ l, x.start_page ∉ attended) →
    dedupByStart attended l = l := by
  intro l
  induction l with
  | nil => intro attended _ _; rfl
  | cons o l ih =>
    intro attended hp hn
    rw [List.pairwise_cons] at hp
    rw [dedupByStart, if_neg (hn o (List.mem_cons_self _ _))]
    refine congrArg (o :: ·) (ih _ hp.2 fun x hx => ?_)
    intro hmem
    rcases List.mem_cons.mp hmem with he | hmem'
    · exact absurd he (Int.ne_of_gt (hp.1 x hx))
    · exact hn x (List.mem_cons_of_mem o hx) hmem'

theorem assignEndPages_start : ∀ (total : Int) (ds : List TocEntry),
    (assignEndPages total ds).map TocRange.start_page =
      ds.map TocEntry.start_page
  | _, [] => rfl
  | _, [_] => rfl
  | total, _ :: o2 :: rest => by
    simp [assignEndPages, assignEndPages_start total (o2 :: rest)]

theorem assignEndPages_chain (total : Int) : ∀ ds : List TocEntry,
    List.Chain' (fun a b => a.end_page + 1 = b.start_page)
      (assignEndPages total ds)
  | [] => List.chain'_nil
  | [o] => List.chain'_singleton _
  | o :: o2 :: rest => by
    have ih := assignEndPages_chain total (o2 :: rest)
    cases rest with
    | nil =>
      simp only [assignEndPages, List.chain'_cons, List.chain'_singleton,
        and_true]
      omega
    | cons o3 t =>
      simp only [assignEndPages] at ih ⊢
      rw [List.chain'_cons]
      refine ⟨?_, ih⟩
      show o2.start_page - 1 + 1 = o2.start_page
      omega

theorem assignEndPages_last (total : Int) : ∀ (ds : List TocEntry),
    ds ≠ [] →
    ((assignEndPages total ds).getLast?).map TocRange.end_page = some total
  | [], h => absurd rfl h
  | [_], _ => rfl
  | o :: o2 :: rest, _ => by
    have ih := assignEndPages_last total (o2 :: rest) (by simp)
    cases rest with
    | nil => rfl
    | cons o3 t =>
      simp only [assignEndPages] at ih ⊢
      rw [List.getLast?_cons_cons]
      exact ih

/-- Read a cleaned range back as a raw entry (its `start_page` is the raw
start page), used to restate the spec's idempotence property. -/
def rangeToEntry (r : TocRange) : TocEntry :=
  ⟨r.page_xml, r.start_page, r.section_title⟩

theorem map_rangeToEntry_assign : ∀ (total : Int) (ds : List TocEntry),
    (assignEndPages total ds).map rangeToEntry = ds
  | _, [] => rfl
  | _, [_] => rfl
  | total, _ :: o2 :: rest => by
    simp [assignEndPages, rangeToEntry,
      map_rangeToEntry_assign total (o2 :: rest)]

/-- The retained entries of the pipeline have strictly increasing start
pages. -/
theorem dedup_sort_pairwise (data : List TocEntry) :
    (dedupByStart [] (sortByStart data)).Pairwise
      (fun a b => a.start_page < b.start_page) := by
  apply dedupByStart_pairwise
  exact List.sorted_insertionSort
    (fun a b : TocEntry => a.start_page ≤ b.start_page) data

/-- C1: for every raw TOC entry list, the cleaning algorithm is exactly:
sort ascending by start page (stably), keep only the first entry per
distinct start page, give each retained entry the next one's
`start_page - 1` as `end_page` and the last one the total page count; an
empty input yields an empty output. -/
theorem cleaning_algorithm_spec (data : List TocEntry) (total : Int) :
    cleanedTocData data total =
      assignEndPages total (dedupByStart [] (sortByStart data)) ∧
    cleanedTocData [] total = [] :=
  ⟨cleanedTocData_eq_spec data total, rfl⟩

/-- C2: a non-empty cleaned TOC range list is contiguous
(`end_page + 1` of each range equals the next range's `start_page`), its
last range's `end_page` is the total page count, and its start pages are
strictly increasing (so ranges never overlap). -/
theorem cleaned_ranges_contiguous (data : List TocEntry) (total : Int)
    (h : cleanedTocData data total ≠ []) :
    List.Chain' (fun a b => a.end_page + 1 = b.start_page)
      (cleanedTocData data total) ∧
    ((cleanedTocData data total).getLast?).map TocRange.end_page =
      some total ∧
    (cleanedTocData data total).Pairwise
      (fun a b => a.start_page < b.start_page) := by
  rw [cleanedTocData_eq_spec] at h ⊢
  rw [cleanedTocSpec] at h ⊢
  refine ⟨assignEndPages_chain _ _, assignEndPages_last _ _ ?_, ?_⟩
  · intro hds
    rw [hds] at h
    exact h rfl
  · have hp := dedup_sort_pairwise data
    have hm : ((dedupByStart [] (sortByStart data)).map
        TocEntry.start_page).Pairwise (· < ·) := List.pairwise_map.mpr hp
    rw [← assignEndPages_start] at hm
    exact List.pairwise_map.mp hm

/-- C2 witness at a concrete input. -/
theorem cleaned_ranges_contiguous_witness :
    List.Chain' (fun a b => a.end_page + 1 = b.start_page)
      (cleanedTocData [⟨"a.xhtml", 3, "ch2"⟩, ⟨"b.xhtml", 1, "ch1"⟩] 5) ∧
    ((cleanedTocData [⟨"a.xhtml", 3, "ch2"⟩, ⟨"b.xhtml", 1, "ch1"⟩]
        5).getLast?).map TocRange.end_page = some 5 ∧
    (cleanedTocData [⟨"a.xhtml", 3, "ch2"⟩, ⟨"b.xhtml", 1, "ch1"⟩]
        5).Pairwise (fun a b => a.start_page < b.start_page) :=
  cleaned_ranges_contiguous [⟨"a.xhtml", 3, "ch2"⟩, ⟨"b.xhtml", 1, "ch1"⟩] 5
    (by decide)

/-- C8: the cleaning algorithm is idempotent — re-cleaning the cleaned
output (reading each range's `start_page` back as a raw entry) reproduces
the same ranges, titles and end pages. -/
theorem cleaning_idempotent (data : List TocEntry) (total : Int) :
    cleanedTocData ((cleanedTocData data total).map rangeToEntry) total =
      cleanedTocData data total := by
  rw [cleanedTocData_eq_spec data total, cleanedTocData_eq_spec,
    cleanedTocSpec, cleanedTocSpec, map_rangeToEntry_assign]
  have hp := dedup_sort_pairwise data
  have hsorted : List.Sorted (fun a b : TocEntry =>
      a.start_page ≤ b.start_page) (dedupByStart [] (sortByStart data)) :=
    hp.imp fun h => Int.le_of_lt h
  rw [sortByStart, List.Sorted.insertionSort_eq hsorted,
    dedupByStart_eq_self _ [] hp (by simp)]

/-! ## Package document model and page resolution
(`EpubExtractor.items_dict`, `EpubExtractor._get_image_pages`) -/

/-- A manifest `item` element (the attributes the resolver reads). -/
structure ManifestItem where
  id : Option String
  href : Option String
  media_type : Option String
  properties : Option String
deriving DecidableEq

/-- A spine `itemref` element. -/
structure ItemRef where
  idref : Option String
deriving DecidableEq

/-- Python dict assignment `d[k] = v`: overwrite in place if the key is
present, otherwise append. -/
def dictInsert (d : List (Option String × ManifestItem)) (k : Option String)
    (v : ManifestItem) : List (Option String × ManifestItem) :=
  if d.any (fun p => p.1 == k) then
    d.map (fun p => if p.1 == k then (k, v) else p)
  else d ++ [(k, v)]

/-- `EpubExtractor.items_dict`: the manifest items keyed by their `id`
attribute (which may be absent). -/
def itemsDict (items : List ManifestItem) :
    List (Option String × ManifestItem) :=
  items.foldl (fun d it => dictInsert d it.id it) []

/-- Python `items_dict[idref]` / `idref in items_dict`. -/
def dictGet (d : List (Option String × ManifestItem)) (k : Option String) :
    Option ManifestItem :=
  (d.find? (fun p => p.1 == k)).map (fun p => p.2)

/-- Which wrapper `_get_image_pages` chooses for a spine item. -/
inductive PageKind where
  | imageElement
  | imagePage
deriving DecidableEq

/-- One resolved page: the manifest item, its spine reference and the
chosen wrapper (`ImageElement` for `media-type image/*`, else
`ImagePage`). -/
structure ResolvedPage where
  kind : PageKind
  item : ManifestItem
  itemref : ItemRef
deriving DecidableEq

inductive SpineError where
  | idRefNotFound
  | itemNotFound (idref : String)
deriving DecidableEq

/-- `EpubExtractor._get_image_pages` (materialised into a list by
`image_pages`): walk the spine `itemref`s in order; an absent or empty
`idref` raises `IdRefNotFound`, an `idref` with no manifest entry raises
`ItemNotFound`; otherwise the item is wrapped as `ImageElement` when its
media type starts with `image/`, else as `ImagePage`. -/
def getImagePages (d : List (Option String × ManifestItem)) :
    List ItemRef → Except SpineError (List ResolvedPage)
  | [] => .ok []
  | r :: rest =>
    match r.idref with
    | none => .error .idRefNotFound
    | some s =>
      if s = "" then .error .idRefNotFound
      else
        match dictGet d (some s) with
        | none => .error (.itemNotFound s)
        | some item =>
          let kind := if (item.media_type.getD "").startsWith "image/"
            then PageKind.imageElement else PageKind.imagePage
          match getImagePages d rest with
          | .ok pages => .ok (⟨kind, item, r⟩ :: pages)
          | .error e => .error e

/-- `enumerate(self.image_pages, start=1)` — the page numbering used by
`extract_images` and `xml_path_page_number_dict`. -/
def enumerate1 (l : List ResolvedPage) : List (Nat × ResolvedPage) :=
  ((List.range l.length).map (fun i => i + 1)).zip l

theorem enumerate1_fst (l : List ResolvedPage) :
    (enumerate1 l).map Prod.fst = (List.range l.length).map (fun i => i + 1) := by
  apply List.map_fst_zip
  simp

/-- C3: when every spine `itemref` carries a non-empty `idref` matching a
manifest item, page resolution succeeds with exactly one page per spine
entry, in spine order, and the assigned 1-based page indices are the
unbroken ascending sequence `1..n`. -/
theorem pages_one_per_spine_entry (items : List ManifestItem)
    (itemrefs : List ItemRef)
    (h : ∀ r ∈ itemrefs, ∃ s, r.idref = some s ∧ s ≠ "" ∧
      (dictGet (itemsDict items) (some s)).isSome) :
    ∃ pages, getImagePages (itemsDict items) itemrefs = .ok pages ∧
      pages.length = itemrefs.length ∧
      pages.map ResolvedPage.itemref = itemrefs ∧
      (enumerate1 pages).map Prod.fst =
        (List.range itemrefs.length).map (fun i => i + 1) := by
  have main : ∃ pages, getImagePages (itemsDict items) itemrefs = .ok pages ∧
      pages.length = itemrefs.length ∧
      pages.map ResolvedPage.itemref = itemrefs := by
    induction itemrefs with
    | nil => exact ⟨[], rfl, rfl, rfl⟩
    | cons r rest ih =>
      obtain ⟨s, hs, hne, hget⟩ := h r (List.mem_cons_self _ _)
      obtain ⟨item, hitem⟩ := Option.isSome_iff_exists.mp hget
      obtain ⟨pages, hp, hlen, hmap⟩ :=
        ih fun r' hr' => h r' (List.mem_cons_of_mem _ hr')
      refine ⟨⟨if (item.media_type.getD "").startsWith "image/"
          then PageKind.imageElement else PageKind.imagePage, item, r⟩ ::
          pages, ?_, ?_, ?_⟩
      · simp only [getImagePages, hs, if_neg hne, hitem, hp]
      · simp [hlen]
      · simp [hmap]
  obtain ⟨pages, hp, hlen, hmap⟩ := main
  exact ⟨pages, hp, hlen, hmap, by rw [enumerate1_fst, hlen]⟩

/-- C3 witness at a concrete two-page package. -/
theorem pages_one_per_spine_entry_witness :
    ∃ pages,
      getImagePages
        (itemsDict
          [⟨some "p1", some "x/001.xhtml", some "application/xhtml+xml", none⟩,
           ⟨some "i1", some "image/001.jpg", some "image/jpeg", none⟩])
        [⟨some "p1"⟩, ⟨some "i1"⟩] = .ok pages ∧
      pages.length = ([⟨some "p1"⟩, ⟨some "i1"⟩] : List ItemRef).length ∧
      pages.map ResolvedPage.itemref = [⟨some "p1"⟩, ⟨some "i1"⟩] ∧
      (enumerate1 pages).map Prod.fst =
        (List.range ([⟨some "p1"⟩, ⟨some "i1"⟩] : List ItemRef).length).map
          (fun i => i + 1) :=
  pages_one_per_spine_entry _ _ (by
    intro r hr
    rcases List.mem_cons.mp hr with he | hr2
    · exact ⟨"p1", by rw [he], by decide, by decide⟩
    · rcases List.mem_cons.mp hr2 with he | hr3
      · exact ⟨"i1", by rw [he], by decide, by decide⟩
      · exact absurd hr3 (List.not_mem_nil r))

/-! ## TOC selection policy (`EpubExtractor.get_toc_table`) -/

/-- The exceptions that can escape the two cleaned-TOC accessors:
`TocNcxNotFound` / `NavigationXmlNotFound` when the manifest lacks the
corresponding item, and `xml.etree.ElementTree.ParseError` when even the
repaired TOC document does not parse. -/
inductive TocFail where
  | tocNcxNotFound
  | navigationXmlNotFound
  | parseError
deriving DecidableEq

/-- The second `try` block of `get_toc_table` (around
`navigation_xml.cleaned_navigation_xml_data`): a non-empty cleaned list is
returned, an empty one is falsy and falls through to `return None`,
`NavigationXml.NavigationXmlNotFound` is swallowed (`return None`), and
any other exception propagates. -/
def getTocNav (nav : Except TocFail (List TocRange)) :
    Except TocFail (Option (List TocRange)) :=
  match nav with
  | .ok l => if l.isEmpty then .ok none else .ok (some l)
  | .error .navigationXmlNotFound => .ok none
  | .error e => .error e

/-- `EpubExtractor.get_toc_table`, parameterised by the outcomes of the
two lazily computed cleaned TOC lists (`toc_ncx.cleaned_toc_ncx_data` and
`navigation_xml.cleaned_navigation_xml_data`).  Around the NCX attempt
only `TocNcx.TocNcxNotFound` is caught; an empty cleaned list is falsy and
falls through to the navigation attempt. -/
def getTocTable (ncx nav : Except TocFail (List TocRange)) :
    Except TocFail (Option (List TocRange)) :=
  match ncx with
  | .ok l => if l.isEmpty then getTocNav nav else .ok (some l)
  | .error .tocNcxNotFound => getTocNav nav
  | .error e => .error e

/-- C4 counterexample: when the NCX document is present but fails to
parse, `get_toc_table` propagates the parse error instead of falling back
to the (non-empty) Navigation Document result, contrary to the claim. -/
theorem ncx_parse_failure_propagates :
    getTocTable (.error .parseError) (.ok [⟨"a.xhtml", 1, 3, "c"⟩]) =
      .error .parseError ∧
    getTocTable (.error .parseError) (.ok [⟨"a.xhtml", 1, 3, "c"⟩]) ≠
      .ok (some [⟨"a.xhtml", 1, 3, "c"⟩]) :=
  ⟨rfl, fun h => Except.noConfusion h⟩

/-- C4 (amended): the NCX result is returned when it is non-empty; the
fallback to the Navigation Document happens when the NCX manifest item is
absent (`TocNcxNotFound`) or the cleaned NCX list is empty; when neither
source yields a non-empty list the result is `None` rather than an error;
but an NCX parse failure propagates as an error. -/
theorem get_toc_table_policy (ncx nav : Except TocFail (List TocRange)) :
    (∀ l, ncx = .ok l → l ≠ [] → getTocTable ncx nav = .ok (some l)) ∧
    (∀ l, (ncx = .error .tocNcxNotFound ∨ ncx = .ok []) → nav = .ok l →
      l ≠ [] → getTocTable ncx nav = .ok (some l)) ∧
    ((ncx = .error .tocNcxNotFound ∨ ncx = .ok []) →
      (nav = .error .navigationXmlNotFound ∨ nav = .ok []) →
      getTocTable ncx nav = .ok none) ∧
    (ncx = .error .parseError → getTocTable ncx nav = .error .parseError) := by
  refine ⟨?_, ?_, ?_, ?_⟩
  · intro l hl hne
    subst hl
    cases l with
    | nil => exact absurd rfl hne
    | cons a t => rfl
  · intro l hor hnav hne
    subst hnav
    cases l with
    | nil => exact absurd rfl hne
    | cons a t => rcases hor with h | h <;> subst h <;> rfl
  · intro hor hor2
    rcases hor with h | h <;> subst h <;>
      rcases hor2 with h2 | h2 <;> subst h2 <;> rfl
  · intro h
    subst h
    rfl

/-- C4 witness: with the NCX manifest item absent and a non-empty
navigation result, the navigation ranges are returned. -/
theorem get_toc_table_policy_witness :
    getTocTable (.error .tocNcxNotFound) (.ok [⟨"n.xhtml", 1, 4, "c1"⟩]) =
      .ok (some [⟨"n.xhtml", 1, 4, "c1"⟩]) :=
  (get_toc_table_policy (.error .tocNcxNotFound)
    (.ok [⟨"n.xhtml", 1, 4, "c1"⟩])).2.1 [⟨"n.xhtml", 1, 4, "c1"⟩]
    (Or.inl rfl) rfl (by decide)

/-! ## XML repair and the tolerant loader
(`xml_repair`, `parse_xml_with_recover`) -/

/-- Python regex `\w` on the ASCII characters exercised by these
documents: letters, digits and underscore. -/
def isWordChar (c : Char) : Bool :=
  c.isAlpha || c.isDigit || c == '_'

/-- The negative lookahead of `re_replace = re.compile(r'&(?!\w*?;)')`:
the characters after a `&` start with `\w*;` exactly when the maximal run
of word characters is followed by `;`. -/
def ampFollowedByEntity (rest : List Char) : Bool :=
  match rest.span isWordChar with
  | (_, ';' :: _) => true
  | _ => false

/-- `re_replace.sub('&amp;', span)` as applied by `xml_repair._replace`
to one matched span: every `&` not already starting an entity reference
becomes `&amp;`. -/
def reReplaceSub : List Char → List Char
  | [] => []
  | '&' :: rest =>
    if ampFollowedByEntity rest then '&' :: reReplaceSub rest
    else '&' :: 'a' :: 'm' :: 'p' :: ';' :: reReplaceSub rest
  | c :: rest => c :: reReplaceSub rest

/-- `re_entity.sub(_replace, source)` with
`re_entity = re.compile(r'(>[^<]*)(&)([^<]*<)')`: scanning left to right,
a match starts at a `>`, requires at least one `&` before the next `<`
and extends to that `<`; the matched span is rewritten by `re_replace`
and scanning resumes after the span.  `fuel` only bounds the recursion:
every step consumes at least one character, so `s.length` is always
enough. -/
def reEntitySubFuel : Nat → List Char → List Char
  | 0, s => s
  | _ + 1, [] => []
  | fuel + 1, c :: t =>
    if c = '>' then
      match t.dropWhile (fun d => d != '<') with
      | '<' :: after =>
        if '&' ∈ t.takeWhile (fun d => d != '<') then
          reReplaceSub ('>' :: t.takeWhile (fun d => d != '<') ++ ['<']) ++
            reEntitySubFuel fuel after
        else c :: reEntitySubFuel fuel t
      | _ => c :: reEntitySubFuel fuel t
    else c :: reEntitySubFuel fuel t

/-- `xml_repair(xml_source)`. -/
def xml_repair (s : String) : String :=
  ⟨reEntitySubFuel s.length s.data⟩

inductive ParseErr where
  | notWellFormed
deriving DecidableEq

/-- A parsed single-element document: tag name and decoded text. -/
structure XmlDoc where
  tag : String
  text : String
deriving DecidableEq

def isNameChar (c : Char) : Bool :=
  c.isAlpha || c.isDigit

/-- Decode element text strictly up to the next `<`, modelling
`xml.etree.ElementTree`'s behaviour on the documents exercised here: the
predefined named entities `&amp; &lt; &gt; &quot;` are decoded; a bare
`&` or an unrecognised entity is a well-formedness error; so is running
out of input before a tag. -/
def parseTextLoop : List Char → Option (List Char × List Char)
  | [] => none
  | '<' :: rest => some ([], '<' :: rest)
  | '&' :: 'a' :: 'm' :: 'p' :: ';' :: rest =>
    (parseTextLoop rest).map (fun p => ('&' :: p.1, p.2))
  | '&' :: 'l' :: 't' :: ';' :: rest =>
    (parseTextLoop rest).map (fun p => ('<' :: p.1, p.2))
  | '&' :: 'g' :: 't' :: ';' :: rest =>
    (parseTextLoop rest).map (fun p => ('>' :: p.1, p.2))
  | '&' :: 'q' :: 'u' :: 'o' :: 't' :: ';' :: rest =>
    (parseTextLoop rest).map (fun p => ('"' :: p.1, p.2))
  | '&' :: _ => none
  | c :: rest => (parseTextLoop rest).map (fun p => (c :: p.1, p.2))

/-- Strict parse of a single-element document `<tag>text</tag>`,
modelling `ElementTree.parse` / `ElementTree.fromstring` on the minimal
document shape the verified properties need; any other input — a bare
`&`, an unknown entity, a missing or mismatched closing tag — is a
`ParseError`. -/
def parseXml (s : String) : Except ParseErr XmlDoc :=
  match s.data with
  | '<' :: rest =>
    match rest.span isNameChar with
    | ([], _) => .error .notWellFormed
    | (name, '>' :: body) =>
      match parseTextLoop body with
      | some (text, '<' :: '/' :: closing) =>
        match closing.span isNameChar with
        | (name2, ['>']) =>
          if name2 = name then .ok ⟨⟨name⟩, ⟨text⟩⟩
          else .error .notWellFormed
        | _ => .error .notWellFormed
      | _ => .error .notWellFormed
    | _ => .error .notWellFormed
  | _ => .error .notWellFormed

inductive LoadErr where
  | fileNotFound
  | malformedXml
deriving DecidableEq

/-- `parse_xml_with_recover(xml_path)`: strict parse of the file (a
missing file raises `FileNotFoundError`, which is not caught); only on
`ElementTree.ParseError` is the raw text re-read, repaired with
`xml_repair`, and the repaired in-memory text parsed with
`ElementTree.fromstring`; a second failure propagates as a final
malformed-XML `ParseError`.  The filesystem is modelled as a map from
path to content. -/
def parse_xml_with_recover (fs : String → Option String) (path : String) :
    Except LoadErr XmlDoc :=
  match fs path with
  | none => .error .fileNotFound
  | some text =>
    match parseXml text with
    | .ok doc => .ok doc
    | .error _ =>
      match parseXml (xml_repair text) with
      | .ok doc => .ok doc
      | .error _ => .error .malformedXml

/-- C5: `<p>A & B</p>` fails the strict parse; the repair rewrites the
bare `&` lying between `>` and `<` to `&amp;`; the repaired text parses,
and its decoded text content is exactly `A & B`. -/
theorem xml_repair_round_trip :
    parseXml "<p>A & B</p>" = .error .notWellFormed ∧
    xml_repair "<p>A & B</p>" = "<p>A &amp; B</p>" ∧
    parseXml "<p>A &amp; B</p>" = .ok ⟨"p", "A & B"⟩ :=
  ⟨rfl, rfl, rfl⟩

/-- C6: the tolerant loader repairs only on a parse failure — a missing
file propagates unrepaired; a successful strict parse is returned as is;
on a parse failure the repaired in-memory text (not the original file) is
parsed and its result returned; and if the repaired text still fails, the
loader fails with the malformed-XML error. -/
theorem parse_with_recover_policy (fs : String → Option String)
    (path : String) :
    (fs path = none →
      parse_xml_with_recover fs path = .error .fileNotFound) ∧
    (∀ text doc, fs path = some text → parseXml text = .ok doc →
      parse_xml_with_recover fs path = .ok doc) ∧
    (∀ text e doc, fs path = some text → parseXml text = .error e →
      parseXml (xml_repair text) = .ok doc →
      parse_xml_with_recover fs path = .ok doc) ∧
    (∀ text e e2, fs path = some text → parseXml text = .error e →
      parseXml (xml_repair text) = .error e2 →
      parse_xml_with_recover fs path = .error .malformedXml) := by
  refine ⟨?_, ?_, ?_, ?_⟩ <;> intros <;>
    simp_all [parse_xml_with_recover]

/-- C6 witness: a file whose content is `<p>A & B</p>` fails the strict
parse and is successfully repaired and reparsed in memory. -/
theorem parse_with_recover_policy_witness :
    parse_xml_with_recover
      (fun p => if p = "page.xhtml" then some "<p>A & B</p>" else none)
      "page.xhtml" = .ok ⟨"p", "A & B"⟩ :=
  (parse_with_recover_policy
    (fun p => if p = "page.xhtml" then some "<p>A & B</p>" else none)
    "page.xhtml").2.2.1 "<p>A & B</p>" .notWellFormed ⟨"p", "A & B"⟩
    rfl rfl rfl

/-! ## Page image selection
(`ImagePage.image_element`, `ImagePage.get_largest_image_element`) -/

/-- An image candidate found in a page document, with the on-disk size of
the referenced file (`get_image_size_of_image_element`, i.e.
`os.path.getsize` of the resolved path). -/
structure ImageCandidate where
  href : String
  size : Nat
deriving DecidableEq

/-- One insertion step of `sorted(L, key=lambda x: x[1], reverse=True)`:
Python's sort is stable also with `reverse=True`, so equal sizes keep
their document order and larger sizes come first. -/
def insertBySizeDesc (p : ImageCandidate × Nat) :
    List (ImageCandidate × Nat) → List (ImageCandidate × Nat)
  | [] => [p]
  | q :: t => if p.2 < q.2 then q :: insertBySizeDesc p t else p :: q :: t

/-- Stable descending sort by the second (size) component. -/
def sortBySizeDesc (l : List (ImageCandidate × Nat)) :
    List (ImageCandidate × Nat) :=
  l.foldr insertBySizeDesc []

/-- `ImagePage.get_largest_image_element`: pair each candidate with its
file size, sort descending by size (stably) and take the first. -/
def get_largest_image_element (images : List ImageCandidate) :
    Option ImageCandidate :=
  ((sortBySizeDesc (images.map (fun i => (i, i.size)))).head?).map
    (fun p => p.1)

inductive ImageErr where
  | invalidImageLength
deriving DecidableEq

/-- `ImagePage.image_element`: with two or more candidates the largest
file wins; with exactly one it is returned; otherwise the lookup raises
`InvalidImageLength` (the spec's `InvalidImageCount`).  The `none` arm of
the first branch models Python's `IndexError` on an empty list and is
unreachable there. -/
def image_element (images : List ImageCandidate) :
    Except ImageErr ImageCandidate :=
  if 2 ≤ images.length then
    match get_largest_image_element images with
    | some e => .ok e
    | none => .error .invalidImageLength
  else
    match images with
    | [i] => .ok i
    | _ => .error .invalidImageLength

theorem sortBySizeDesc_head : ∀ l : List (ImageCandidate × Nat),
    l ≠ [] → ∃ (i : Nat) (p : ImageCandidate × Nat),
      l[i]? = some p ∧ (sortBySizeDesc l).head? = some p ∧
      (∀ (j : Nat) (q : ImageCandidate × Nat),
        l[j]? = some q → q.2 ≤ p.2) ∧
      (∀ (j : Nat) (q : ImageCandidate × Nat),
        j < i → l[j]? = some q → q.2 < p.2)
  | [], h => absurd rfl h
  | [x], _ => by
    refine ⟨0, x, rfl, rfl, ?_, ?_⟩
    · intro j q hq
      cases j with
      | zero => cases hq; exact Nat.le_refl _
      | succ j => simp at hq
    · intro j q hj hq
      exact absurd hj (Nat.not_lt_zero j)
  | x :: y :: t, _ => by
    obtain ⟨i, p, h1, h2, hmax, hmin⟩ :=
      sortBySizeDesc_head (y :: t) (by simp)
    have hstep : sortBySizeDesc (x :: y :: t) =
        insertBySizeDesc x (sortBySizeDesc (y :: t)) := rfl
    cases hsd : sortBySizeDesc (y :: t) with
    | nil => rw [hsd] at h2; simp at h2
    | cons a s =>
      rw [hsd] at h2
      have hap : a = p := by simpa using h2
      subst hap
      by_cases hlt : x.2 < a.2
      · refine ⟨i + 1, a, by simpa using h1, ?_, ?_, ?_⟩
        · rw [hstep, hsd, insertBySizeDesc, if_pos hlt]
          rfl
        · intro j q hq
          cases j with
          | zero => cases hq; exact Nat.le_of_lt hlt
          | succ j => exact hmax j q (by simpa using hq)
        · intro j q hj hq
          cases j with
          | zero => cases hq; exact hlt
          | succ j =>
            exact hmin j q (Nat.lt_of_succ_lt_succ hj) (by simpa using hq)
      · refine ⟨0, x, rfl, ?_, ?_, ?_⟩
        · rw [hstep, hsd, insertBySizeDesc, if_neg hlt]
          rfl
        · intro j q hq
          cases j with
          | zero => cases hq; exact Nat.le_refl _
          | succ j =>
            exact Nat.le_trans (hmax j q (by simpa using hq))
              (Nat.le_of_not_lt hlt)
        · intro j q hj hq
          exact absurd hj (Nat.not_lt_zero j)

/-- C7: with two or more candidates, `image_element` selects the
candidate whose file is largest on disk, ties broken in favour of the
first candidate in document order; with zero candidates it fails with
`InvalidImageLength` (the spec's `InvalidImageCount`). -/
theorem image_element_selects_largest (images : List ImageCandidate)
    (h : 2 ≤ images.length) :
    (∃ (i : Nat) (e : ImageCandidate),
      images[i]? = some e ∧ image_element images = .ok e ∧
      (∀ (j : Nat) (x : ImageCandidate),
        images[j]? = some x → x.size ≤ e.size) ∧
      (∀ (j : Nat) (x : ImageCandidate),
        j < i → images[j]? = some x → x.size < e.size)) ∧
    image_element [] = .error .invalidImageLength := by
  refine ⟨?_, rfl⟩
  have hne : images.map (fun i => (i, i.size)) ≠ [] := by
    cases images with
    | nil => simp at h
    | cons a t => simp
  obtain ⟨i, p, h1, h2, hmax, hmin⟩ :=
    sortBySizeDesc_head (images.map (fun i => (i, i.size))) hne
  rw [List.getElem?_map] at h1
  obtain ⟨e, he⟩ : ∃ e, images[i]? = some e := by
    cases hi : images[i]? with
    | none => rw [hi] at h1; simp at h1
    | some e => exact ⟨e, rfl⟩
  rw [he] at h1
  have hp : p = (e, e.size) := by simpa using h1.symm
  refine ⟨i, e, he, ?_, ?_, ?_⟩
  · obtain ⟨a, rest2, hi⟩ : ∃ a rest2, images = a :: rest2 := by
      cases images with
      | nil => simp at h
      | cons a rest2 => exact ⟨a, rest2, rfl⟩
    obtain ⟨b, t, hbt⟩ : ∃ b t, rest2 = b :: t := by
      cases hr : rest2 with
      | nil => rw [hi, hr] at h; simp at h
      | cons b t => exact ⟨b, t, rfl⟩
    subst hbt
    subst hi
    have hg : get_largest_image_element (a :: b :: t) = some e := by
      rw [get_largest_image_element, h2, hp]
      rfl
    simp only [image_element, List.length_cons, hg]
    rw [if_pos (by omega)]
  · intro j x hx
    have hj := hmax j (x, x.size) (by rw [List.getElem?_map, hx]; rfl)
    rw [hp] at hj
    exact hj
  · intro j x hj hx
    have hlt := hmin j (x, x.size) hj (by rw [List.getElem?_map, hx]; rfl)
    rw [hp] at hlt
    exact hlt

/-- C7 witness: sizes `3, 5, 5` select the second candidate (largest,
first among the tie). -/
theorem image_element_selects_largest_witness :
    (∃ (i : Nat) (e : ImageCandidate),
      ([⟨"a.png", 3⟩, ⟨"b.png", 5⟩, ⟨"c.png", 5⟩] :
        List ImageCandidate)[i]? = some e ∧
      image_element [⟨"a.png", 3⟩, ⟨"b.png", 5⟩, ⟨"c.png", 5⟩] = .ok e ∧
      (∀ (j : Nat) (x : ImageCandidate),
        ([⟨"a.png", 3⟩, ⟨"b.png", 5⟩, ⟨"c.png", 5⟩] :
        List ImageCandidate)[j]? = some x → x.size ≤ e.size) ∧
      (∀ (j : Nat) (x : ImageCandidate), j < i →
        ([⟨"a.png", 3⟩, ⟨"b.png", 5⟩, ⟨"c.png", 5⟩] :
        List ImageCandidate)[j]? = some x → x.size < e.size)) ∧
    image_element [] = .error .invalidImageLength :=
  image_element_selects_largest
    [⟨"a.png", 3⟩, ⟨"b.png", 5⟩, ⟨"c.png", 5⟩] (by decide)

/-! ## Filesystem effects of image extraction
(`convert_to_jpeg`, `EpubExtractor._move_jpeg_file`,
`EpubExtractor.extract_images`) -/

/-- A filesystem snapshot: the existing directories, and the files as a
path-to-content map. -/
structure FS where
  dirs : List String
  files : List (String × String)
deriving DecidableEq

/-- Read a file's content. -/
def fsLookup (fs : FS) (path : String) : Option String :=
  (fs.files.find? (fun p => p.1 == path)).map (fun p => p.2)

/-- `os.path.exists`. -/
def fsExists (fs : FS) (path : String) : Bool :=
  fs.dirs.contains path || fs.files.any (fun p => p.1 == path)

/-- Write (create or overwrite) a file. -/
def fsWrite (fs : FS) (path content : String) : FS :=
  { fs with files :=
      fs.files.filter (fun p => p.1 != path) ++ [(path, content)] }

/-- `os.remove`. -/
def fsRemove (fs : FS) (path : String) : FS :=
  { fs with files := fs.files.filter (fun p => p.1 != path) }

/-- `shutil.rmtree`: remove the directory and everything under it. -/
def fsRmtree (fs : FS) (dir : String) : FS :=
  { dirs := fs.dirs.filter
      (fun d => !(d == dir || (dir ++ "/").isPrefixOf d)),
    files := fs.files.filter (fun p => !((dir ++ "/").isPrefixOf p.1)) }

/-- `os.mkdir`. -/
def fsMkdir (fs : FS) (dir : String) : FS :=
  { fs with dirs := fs.dirs ++ [dir] }

/-- `shutil.copy` (source and destination distinct in every call verified
here; a missing source would raise inside `shutil`). -/
def fsCopy (fs : FS) (src dst : String) : FS :=
  match fsLookup fs src with
  | some c => fsWrite fs dst c
  | none => fs

/-- `shutil.move`. -/
def fsMove (fs : FS) (src dst : String) : FS :=
  match fsLookup fs src with
  | some c => fsRemove (fsWrite fs dst c) src
  | none => fs

/-- Stand-in for Pillow's RGB-conversion and JPEG re-encoding of the
source bytes. -/
def jpegOf (content : String) : String :=
  "jpeg:" ++ content

/-- `convert_to_jpeg(source_file_path, destination_file_path)`: re-encode
the source image as JPEG at the destination, then `os.remove` the
source.  (A missing source would raise inside PIL; unreachable from the
callers verified here.) -/
def convert_to_jpeg (fs : FS)
    (source_file_path destination_file_path : String) : FS :=
  match fsLookup fs source_file_path with
  | some c =>
    fsRemove (fsWrite fs destination_file_path (jpegOf c)) source_file_path
  | none => fs

/-- `'{:05d}'.format(page_number)` for the non-negative page numbers used
here. -/
def format_page_number (i : Nat) : String :=
  ⟨List.replicate (5 - (toString i).length) '0'⟩ ++ toString i

/-- The data `_move_jpeg_file` reads from an `ImageElementBase`: the
resolved image path and whether the image is a PNG. -/
structure ImagePageFile where
  image_path : String
  is_png : Bool
deriving DecidableEq

/-- `EpubExtractor._move_jpeg_file`: a PNG page with `convert_png` set is
converted (its source deleted by `convert_to_jpeg`) to a zero-padded
`.jpg` name; a PNG page without conversion keeps a `.png` name; any other
page gets a `.jpg` name; non-conversion transfers use `shutil.copy` or
`shutil.move` according to `copy`.  `os.path.join` is string
concatenation with `/` for the relative names used here. -/
def move_jpeg_file (fs : FS) (image_page : ImagePageFile)
    (output_dir : String) (page_index : Nat) (convert_png : Bool)
    (copy : Bool) : FS :=
  if image_page.is_png then
    if convert_png then
      convert_to_jpeg fs image_page.image_path
        (output_dir ++ "/" ++ format_page_number page_index ++ ".jpg")
    else
      if copy then
        fsCopy fs image_page.image_path
          (output_dir ++ "/" ++ format_page_number page_index ++ ".png")
      else
        fsMove fs image_page.image_path
          (output_dir ++ "/" ++ format_page_number page_index ++ ".png")
  else
    if copy then
      fsCopy fs image_page.image_path
        (output_dir ++ "/" ++ format_page_number page_index ++ ".jpg")
    else
      fsMove fs image_page.image_path
        (output_dir ++ "/" ++ format_page_number page_index ++ ".jpg")

/-- `os.path.splitext`: split off the extension at the last `.` of the
basename, treating leading dots of the basename as part of the root. -/
def splitext (p : String) : String × String :=
  let cs := p.data
  let base := (cs.reverse.takeWhile (fun c => c != '/')).reverse
  let lead := base.takeWhile (fun c => c == '.')
  let rest := base.drop lead.length
  let extRev := rest.reverse.takeWhile (fun c => c != '.')
  if extRev.length = rest.length then (p, "")
  else (⟨cs.take (cs.length - extRev.length - 1)⟩, ⟨'.' :: extRev.reverse⟩)

/-- `output_dir or os.path.splitext(self.epub_file_path)[0]` — an absent
or empty (falsy) output directory defaults to the epub path without its
extension. -/
def resolveOutputDir (epub_file_path : String)
    (output_dir : Option String) : String :=
  match output_dir with
  | some d => if d = "" then (splitext epub_file_path).1 else d
  | none => (splitext epub_file_path).1

inductive ExtractErr where
  | outputDirectoryAlreadyExists (dir : String)
deriving DecidableEq

/-- The `for i, image_page in enumerate(self.image_pages, start=1)` loop
of `extract_images`.  The pages are already resolved (`image_path`,
`is_png`), so the per-page `InvalidImageLength` warning path does not
arise. -/
def movePagesLoop (fs : FS) (image_pages : List ImagePageFile)
    (output_dir : String) (convert_png : Bool) (copy : Bool) : FS :=
  (List.enumFrom 1 image_pages).foldl
    (fun a p => move_jpeg_file a p.2 output_dir p.1 convert_png copy) fs

/-- `EpubExtractor.extract_images`: resolve the output directory; if it
already exists, either `shutil.rmtree` it (when `delete_exists_dir`) or
raise `OutputDirectoryAlreadyExists` before touching the filesystem;
then `os.mkdir` it and transfer every page in order with 1-based
indices.  The result pairs the final filesystem with the raised
exception, if any. -/
def extract_images (fs : FS) (epub_file_path : String)
    (image_pages : List ImagePageFile) (output_dir : Option String)
    (convert_png : Bool) (delete_exists_dir : Bool) (copy : Bool) :
    FS × Option ExtractErr :=
  let out := resolveOutputDir epub_file_path output_dir
  if fsExists fs out then
    if delete_exists_dir then
      (movePagesLoop (fsMkdir (fsRmtree fs out) out) image_pages out
        convert_png copy, none)
    else
      (fs, some (.outputDirectoryAlreadyExists out))
  else
    (movePagesLoop (fsMkdir fs out) image_pages out convert_png copy, none)

theorem find_filter_self (l : List (String × String)) (p : String) :
    (l.filter (fun q => q.1 != p)).find? (fun q => q.1 == p) = none := by
  induction l with
  | nil => rfl
  | cons q t ih =>
    rw [List.filter_cons]
    by_cases hq : q.1 = p
    · rw [if_neg (by simp [hq])]
      exact ih
    · rw [if_pos (by simp [hq]), List.find?_cons_of_neg _ (by simp [hq])]
      exact ih

theorem find_filter_other (l : List (String × String)) (p s : String)
    (h : s ≠ p) :
    (l.filter (fun q => q.1 != p)).find? (fun q => q.1 == s) =
      l.find? (fun q => q.1 == s) := by
  induction l with
  | nil => rfl
  | cons q t ih =>
    rw [List.filter_cons]
    by_cases hq : q.1 = p
    · have hqs : ¬ ((fun q : String × String => q.1 == s) q = true) := by
        simp [hq]
        exact fun he => h he.symm
      rw [if_neg (by simp [hq]), ih]
      exact (List.find?_cons_of_neg t hqs).symm
    · rw [if_pos (by simp [hq])]
      by_cases hqs : q.1 = s
      · rw [List.find?_cons_of_pos _ (by simp [hqs]),
          List.find?_cons_of_pos _ (by simp [hqs])]
      · rw [List.find?_cons_of_neg _ (by simp [hqs]),
          List.find?_cons_of_neg _ (by simp [hqs])]
        exact ih

theorem fsLookup_write_self (fs : FS) (p c : String) :
    fsLookup (fsWrite fs p c) p = some c := by
  unfold fsLookup fsWrite
  rw [List.find?_append, find_filter_self, Option.none_or,
    List.find?_cons_of_pos _ (by simp)]
  rfl

theorem fsLookup_write_ne (fs : FS) (d c s : String) (h : s ≠ d) :
    fsLookup (fsWrite fs d c) s = fsLookup fs s := by
  unfold fsLookup fsWrite
  rw [List.find?_append, find_filter_other _ _ _ h,
    List.find?_cons_of_neg _ (by simp; exact fun he => h he.symm)]
  cases fs.files.find? (fun q => q.1 == s) with
  | none => rfl
  | some q => rfl

theorem fsLookup_remove_self (fs : FS) (p : String) :
    fsLookup (fsRemove fs p) p = none := by
  unfold fsLookup fsRemove
  rw [find_filter_self]
  rfl

theorem fsLookup_remove_ne (fs : FS) (p s : String) (h : s ≠ p) :
    fsLookup (fsRemove fs p) s = fsLookup fs s := by
  unfold fsLookup fsRemove
  rw [find_filter_other _ _ _ h]

/-- C9: requesting extraction into an already existing output directory
without `delete_exists_dir` fails with `OutputDirectoryAlreadyExists` and
returns the filesystem exactly as it was — no create, copy, move,
conversion or delete has happened. -/
theorem extract_images_existing_dir (fs : FS) (epub_file_path : String)
    (image_pages : List ImagePageFile) (output_dir : Option String)
    (convert_png copy : Bool)
    (h : fsExists fs (resolveOutputDir epub_file_path output_dir) = true) :
    extract_images fs epub_file_path image_pages output_dir convert_png
      false copy =
      (fs, some (.outputDirectoryAlreadyExists
        (resolveOutputDir epub_file_path output_dir))) := by
  unfold extract_images
  simp [h]

/-- C9 witness: extracting `book.epub` while the directory `book` exists
fails and leaves the filesystem untouched. -/
theorem extract_images_existing_dir_witness :
    extract_images ⟨["book"], [("book.epub", "zip")]⟩ "book.epub"
      [⟨"item/p1.jpg", false⟩] none true false true =
      (⟨["book"], [("book.epub", "zip")]⟩,
        some (.outputDirectoryAlreadyExists "book")) :=
  extract_images_existing_dir ⟨["book"], [("book.epub", "zip")]⟩
    "book.epub" [⟨"item/p1.jpg", false⟩] none true true rfl

/-- C10: with conversion enabled and copy mode requested, the source file
of a PNG page is nevertheless deleted by `convert_to_jpeg` (and the
converted JPEG written), while the source file of a non-PNG page is left
in place by `shutil.copy`. -/
theorem png_conversion_deletes_source (fs : FS) (page : ImagePageFile)
    (output_dir : String) (page_index : Nat) (c : String)
    (hsrc : fsLookup fs page.image_path = some c)
    (hne : page.image_path ≠
      output_dir ++ "/" ++ format_page_number page_index ++ ".jpg") :
    (page.is_png = true →
      fsLookup (move_jpeg_file fs page output_dir page_index true true)
        page.image_path = none ∧
      fsLookup (move_jpeg_file fs page output_dir page_index true true)
        (output_dir ++ "/" ++ format_page_number page_index ++ ".jpg") =
        some (jpegOf c)) ∧
    (page.is_png = false →
      fsLookup (move_jpeg_file fs page output_dir page_index true true)
        page.image_path = some c) := by
  constructor
  · intro hpng
    simp only [move_jpeg_file, hpng, if_true, convert_to_jpeg, hsrc]
    constructor
    · exact fsLookup_remove_self _ _
    · rw [fsLookup_remove_ne _ _ _ (fun he => hne he.symm),
        fsLookup_write_self]
  · intro hpng
    simp only [move_jpeg_file, hpng, Bool.false_eq_true, if_false,
      if_true, fsCopy, hsrc]
    rw [fsLookup_write_ne _ _ _ _ hne]
    exact hsrc

/-- C10 witness: a PNG page's source is deleted and a converted JPEG
written, while a JPEG page's source survives the copy. -/
theorem png_conversion_deletes_source_witness :
    ((⟨"item/p1.png", true⟩ : ImagePageFile).is_png = true →
      fsLookup (move_jpeg_file ⟨[], [("item/p1.png", "png-bytes")]⟩
          ⟨"item/p1.png", true⟩ "out" 1 true true) "item/p1.png" = none ∧
      fsLookup (move_jpeg_file ⟨[], [("item/p1.png", "png-bytes")]⟩
          ⟨"item/p1.png", true⟩ "out" 1 true true)
        ("out" ++ "/" ++ format_page_number 1 ++ ".jpg") =
        some (jpegOf "png-bytes")) ∧
    ((⟨"item/p1.png", true⟩ : ImagePageFile).is_png = false →
      fsLookup (move_jpeg_file ⟨[], [("item/p1.png", "png-bytes")]⟩
          ⟨"item/p1.png", true⟩ "out" 1 true true) "item/p1.png" =
        some "png-bytes") :=
  png_conversion_deletes_source ⟨[], [("item/p1.png", "png-bytes")]⟩
    ⟨"item/p1.png", true⟩ "out" 1 "png-bytes" rfl (by decide)

end Epub
